import Mathlib

/-!
Verification of the AST code-extractor repository (`src/LanguageConfig.js`,
`src/ASTExtractor.js`, `src/ExtractorFactory.js`, `src/CompleteExtractor.js`)
against its natural-language specification.

The syntax tree consumed by the extractor is external (tree-sitter): the spec
treats it as an opaque tree of nodes with a type tag, a source-text slice,
0-based start/end positions, named/anonymous status, field-name child access,
child/sibling/parent links.  We model such a tree as an inductive value.
Parent and previous-sibling links, which in JavaScript are pointers inside the
mutable tree object, are modelled by pairing every node with its context
(chain of ancestors and list of preceding siblings) during traversal; a lemma
(`findNodesByTypeCtx_map_fst`) proves that the context-carrying traversal
visits exactly the nodes the source's `findNodesByType` returns, in the same
order.
-/

namespace AstSpec

/-- Scalar data of one syntax-tree node: type tag, source-text slice, named
flag, 0-based start/end row/column, and the field-name table mapping a field
name to the index of the corresponding child (tree-sitter
`childForFieldName`). -/
structure NodeInfo where
  type : String
  text : String
  isNamed : Bool
  startRow : Nat
  startCol : Nat
  endRow : Nat
  endCol : Nat
  fieldTable : List (String × Nat)
deriving Repr, DecidableEq

/-- One external syntax-tree node: scalar data plus ordered children. -/
inductive SNode where
  | mk (info : NodeInfo) (children : List SNode)

/-- Scalar data of a node. -/
def SNode.info : SNode → NodeInfo
  | .mk i _ => i

/-- Ordered children of a node. -/
def SNode.children : SNode → List SNode
  | .mk _ cs => cs

/-- Node type tag (`node.type`). -/
def SNode.type (n : SNode) : String := n.info.type

/-- Source text slice of the node (`node.text`). -/
def SNode.text (n : SNode) : String := n.info.text

/-- Whether the node is a named (non-anonymous) node. -/
def SNode.isNamed (n : SNode) : Bool := n.info.isNamed

/-- 0-based start row (`node.startPosition.row`). -/
def SNode.startRow (n : SNode) : Nat := n.info.startRow

/-- 0-based start column (`node.startPosition.column`). -/
def SNode.startCol (n : SNode) : Nat := n.info.startCol

/-- 0-based end row (`node.endPosition.row`). -/
def SNode.endRow (n : SNode) : Nat := n.info.endRow

/-- 0-based end column (`node.endPosition.column`). -/
def SNode.endCol (n : SNode) : Nat := n.info.endCol

/-- `node.childForFieldName(f)`: the child registered under field name `f`,
if any. -/
def childForFieldName (n : SNode) (f : String) : Option SNode :=
  (n.info.fieldTable.lookup f).bind (fun i => n.children.get? i)

/-- `node.childCount`/`node.child(i)` enumeration is `n.children` itself. -/
def SNode.childCount (n : SNode) : Nat := n.children.length

/-- Whether `pat` occurs as a contiguous run inside `s`. -/
def charsContain (pat : List Char) : List Char → Bool
  | [] => pat.isEmpty
  | c :: rest => pat.isPrefixOf (c :: rest) || charsContain pat rest

/-- JavaScript `a.includes(sub)` on strings: substring containment. -/
def jsIncludes (s sub : String) : Bool :=
  charsContain sub.toList s.toList

/-- JavaScript `x || y` for strings: `y` when `x` is falsy (empty). -/
def jsOr (x y : String) : String :=
  if x = "" then y else x

/-- JavaScript truthiness of a nullable string: `null` and `""` are falsy. -/
def jsTruthy : Option String → Bool
  | none => false
  | some s => !(s == "")

/-- Characters of a string with leading and trailing whitespace removed. -/
def trimChars (cs : List Char) : List Char :=
  (((cs.dropWhile Char.isWhitespace).reverse).dropWhile Char.isWhitespace).reverse

/-- JavaScript `s.trim()`: strip leading and trailing whitespace. -/
def jsTrim (s : String) : String :=
  String.mk (trimChars s.toList)

/-- JavaScript `s.startsWith(pre)`. -/
def jsStartsWith (s pre : String) : Bool :=
  pre.toList.isPrefixOf s.toList

/-- JavaScript `array.join(sep)`. -/
def jsJoin (sep : String) : List String → String
  | [] => ""
  | [s] => s
  | s :: rest => s ++ sep ++ jsJoin sep rest

/-- Splitter for JavaScript `s.split(sep)` with a one-character separator. -/
def splitOnCharAux (sep : Char) : List Char → List Char → List String
  | [], cur => [String.mk cur.reverse]
  | c :: rest, cur =>
      if c = sep then String.mk cur.reverse :: splitOnCharAux sep rest []
      else splitOnCharAux sep rest (c :: cur)

/-- JavaScript `s.split(',')`. -/
def jsSplitOnComma (s : String) : List String :=
  splitOnCharAux ',' s.toList []

/-- Language configuration (`LanguageConfig.js`): which node types denote
classes / methods / fields, and which field holds each entity's name. -/
structure LangConfig where
  classTypes : List String
  classNameField : String
  methodTypes : List String
  methodNameField : String
  fieldTypes : List String
  fieldNameField : String
deriving Repr, DecidableEq

/-- `JavaConfig` from `LanguageConfig.js`. -/
def JavaConfig : LangConfig :=
  { classTypes := ["class_declaration"]
    classNameField := "name"
    methodTypes := ["method_declaration", "constructor_declaration"]
    methodNameField := "name"
    fieldTypes := ["field_declaration"]
    fieldNameField := "declarator" }

/-- `PythonConfig` from `LanguageConfig.js`. -/
def PythonConfig : LangConfig :=
  { classTypes := ["class_definition"]
    classNameField := "name"
    methodTypes := ["function_definition"]
    methodNameField := "name"
    fieldTypes := ["assignment", "expression_statement"]
    fieldNameField := "left" }

/-- `CSharpConfig` from `LanguageConfig.js`. -/
def CSharpConfig : LangConfig :=
  { classTypes := ["class_declaration"]
    classNameField := "name"
    methodTypes := ["method_declaration", "constructor_declaration"]
    methodNameField := "name"
    fieldTypes := ["field_declaration", "property_declaration"]
    fieldNameField := "name" }

/-- `JavaScriptConfig` from `LanguageConfig.js`. -/
def JavaScriptConfig : LangConfig :=
  { classTypes := ["class_declaration"]
    classNameField := "name"
    methodTypes := ["method_definition", "function_declaration", "arrow_function"]
    methodNameField := "name"
    fieldTypes := ["public_field_definition", "lexical_declaration", "variable_declaration"]
    fieldNameField := "name" }

/-- `TypeScriptConfig` from `LanguageConfig.js`. -/
def TypeScriptConfig : LangConfig :=
  { classTypes := ["class_declaration"]
    classNameField := "name"
    methodTypes := ["method_definition", "function_declaration", "arrow_function"]
    methodNameField := "name"
    fieldTypes := ["public_field_definition", "property_signature", "lexical_declaration"]
    fieldNameField := "name" }

/-- `LanguageConfigMap` from `LanguageConfig.js`, as an association list in
declaration order. -/
def LanguageConfigMap : List (String × LangConfig) :=
  [("java", JavaConfig),
   ("python", PythonConfig),
   ("csharp", CSharpConfig),
   ("javascript", JavaScriptConfig),
   ("typescript", TypeScriptConfig)]

/-- JavaScript `toLowerCase` restricted to the ASCII range used by the
language identifiers. -/
def jsToLower (s : String) : String :=
  String.mk (s.toList.map Char.toLower)

/-- What a JavaScript property read `LanguageConfigMap[key]` can produce:
one of the five registered configurations (an own property), a truthy value
inherited from `Object.prototype` (a plain object literal keeps the default
prototype chain), or `undefined`. -/
inductive JsProp where
  | own (cfg : LangConfig)
  | inherited
  | undefinedVal
deriving Repr, DecidableEq

/-- The property names a plain object literal inherits from
`Object.prototype`; each is bound to a truthy value (a function, or — for
the `__proto__` accessor — the prototype object itself).  Property access is
case-sensitive, so only the all-lowercase names (`constructor`,
`__proto__`) are reachable through a lowercased language id. -/
def objectPrototypeProps : List String :=
  ["constructor", "hasOwnProperty", "isPrototypeOf", "propertyIsEnumerable",
   "toLocaleString", "toString", "valueOf", "__proto__", "__defineGetter__",
   "__defineSetter__", "__lookupGetter__", "__lookupSetter__"]

/-- JavaScript `LanguageConfigMap[key]`: the own properties first, then the
prototype chain, else `undefined`. -/
def languageConfigMapGet (key : String) : JsProp :=
  match LanguageConfigMap.lookup key with
  | some cfg => .own cfg
  | none =>
      if objectPrototypeProps.contains key then .inherited else .undefinedVal

/-- Outcome of `getLanguageConfig`: a registered configuration, a truthy
`Object.prototype` member returned in place of a configuration, or the
thrown configuration error. -/
inductive ConfigResult where
  | ok (cfg : LangConfig)
  | inherited
  | thrown (msg : String)
deriving Repr, DecidableEq

/-- `getLanguageConfig` from `LanguageConfig.js`: reads
`LanguageConfigMap[languageName.toLowerCase()]` and throws only when the
result is falsy — an inherited `Object.prototype` member is truthy, passes
the `if (!config)` check and is returned as the "configuration". -/
def getLanguageConfig (languageName : String) : ConfigResult :=
  match languageConfigMapGet (jsToLower languageName) with
  | .own config => .ok config
  | .inherited => .inherited
  | .undefinedVal => .thrown ("不支持的语言: " ++ languageName)

/-- `getSupportedLanguages` from `LanguageConfig.js`. -/
def getSupportedLanguages : List String :=
  LanguageConfigMap.map Prod.fst

/-- The children of a node are smaller than the node, for well-founded
recursion over the external tree. -/
theorem SNode.sizeOf_children_lt (n : SNode) : sizeOf n.children < sizeOf n := by
  cases n with
  | mk i cs =>
    simp [SNode.children]

mutual

/-- `ASTExtractor.findNodesByType(node, targetTypes)`: pre-order collection of
all nodes in the subtree whose type is in `types` (the JS version pushes the
node before recursing into children, left to right, into one shared result
array). -/
def findNodesByType (node : SNode) (types : List String) : List SNode :=
  (if types.contains node.type then [node] else []) ++
    findNodesInList node.children types
termination_by sizeOf node
decreasing_by
  exact SNode.sizeOf_children_lt node

/-- Traversal of a child list for `findNodesByType`, left to right. -/
def findNodesInList (ns : List SNode) (types : List String) : List SNode :=
  match ns with
  | [] => []
  | c :: rest => findNodesByType c types ++ findNodesInList rest types
termination_by sizeOf ns
decreasing_by
  all_goals (simp <;> omega)

end

mutual

/-- All nodes of the subtree in depth-first pre-order: the node itself, then
each child's subtree, left to right. -/
def preorder (node : SNode) : List SNode :=
  node :: preorderList node.children
termination_by sizeOf node
decreasing_by
  exact SNode.sizeOf_children_lt node

/-- Pre-order traversal of a list of sibling subtrees, left to right. -/
def preorderList (ns : List SNode) : List SNode :=
  match ns with
  | [] => []
  | c :: rest => preorder c ++ preorderList rest
termination_by sizeOf ns
decreasing_by
  all_goals (simp <;> omega)

end

/-- `findNodesByType` is exactly the pre-order node list filtered by type:
parents before children, siblings left to right. -/
theorem findNodesByType_eq_filter_preorder (node : SNode) (types : List String) :
    findNodesByType node types =
      (preorder node).filter (fun m => types.contains m.type) := by
  have key : ∀ k : Nat,
      (∀ n : SNode, sizeOf n ≤ k → ∀ ts,
        findNodesByType n ts = (preorder n).filter (fun m => ts.contains m.type)) ∧
      (∀ l : List SNode, sizeOf l ≤ k → ∀ ts,
        findNodesInList l ts = (preorderList l).filter (fun m => ts.contains m.type)) := by
    intro k
    induction k with
    | zero =>
        constructor
        · intro n h
          cases n with
          | mk i cs =>
            simp at h
        · intro l h
          cases l <;> simp at h
    | succ k ih =>
        constructor
        · intro n h ts
          cases n with
          | mk i cs =>
            have hcs : sizeOf cs ≤ k := by
              simp at h
              omega
            rw [findNodesByType, preorder, List.filter_cons]
            simp only [SNode.children]
            rw [ih.2 cs hcs ts]
            by_cases hmem : (SNode.mk i cs).type ∈ ts
            · simp [hmem]
            · simp [hmem]
        · intro l h ts
          cases l with
          | nil =>
            rw [findNodesInList, preorderList]
            rfl
          | cons c rest =>
            have hsplit : sizeOf c ≤ k ∧ sizeOf rest ≤ k := by
              simp at h
              omega
            rw [findNodesInList, preorderList, List.filter_append,
              ih.1 c hsplit.1 ts, ih.2 rest hsplit.2 ts]
  exact (key (sizeOf node)).1 node (Nat.le_refl _) types

/-!
## Context-carrying traversal

In JavaScript, `node.parent`, `node.previousSibling` and
`node.previousNamedSibling` follow pointers of the tree object.  In the
functional model each node visited by a traversal is paired with a `Ctx`
holding exactly that information: the chain of proper ancestors — each with
its own preceding-sibling list — and the node's preceding siblings, both
ordered nearest-first.
-/

/-- Traversal context of a node inside a tree: `ancestors` is the chain of
proper ancestors, nearest first, each paired with its own list of preceding
siblings (nearest first); `prevSibs` is the node's preceding siblings,
nearest first. -/
structure Ctx where
  ancestors : List (SNode × List SNode)
  prevSibs : List SNode

/-- The ancestor node chain of a context, nearest first. -/
def Ctx.ancNodes (ctx : Ctx) : List SNode :=
  ctx.ancestors.map Prod.fst

/-- `node.parent`, from the context. -/
def Ctx.parentNode (ctx : Ctx) : Option SNode :=
  (ctx.ancestors.head?).map Prod.fst

/-- `node.parent.previousSibling` chain (the parent's preceding siblings,
nearest first), from the context. -/
def Ctx.parentPrevSibs (ctx : Ctx) : List SNode :=
  ((ctx.ancestors.head?).map Prod.snd).getD []

/-- `node.parent?.parent`, from the context. -/
def Ctx.grandparentNode (ctx : Ctx) : Option SNode :=
  (ctx.ancestors.get? 1).map Prod.fst

mutual

/-- All (node, context) pairs of the subtree rooted at `n` (whose own context
is `ctx`), in depth-first pre-order. -/
def preorderCtx (n : SNode) (ctx : Ctx) : List (SNode × Ctx) :=
  (n, ctx) :: preorderCtxSibs n ctx [] n.children
termination_by sizeOf n
decreasing_by
  exact SNode.sizeOf_children_lt n

/-- Traversal of the children `rest` of `parent` (context `pctx`), where
`done` holds the already-visited earlier siblings, nearest first. -/
def preorderCtxSibs (parent : SNode) (pctx : Ctx) (done rest : List SNode) :
    List (SNode × Ctx) :=
  match rest with
  | [] => []
  | c :: cs =>
      preorderCtx c ⟨(parent, pctx.prevSibs) :: pctx.ancestors, done⟩ ++
        preorderCtxSibs parent pctx (c :: done) cs
termination_by sizeOf rest
decreasing_by
  all_goals (simp <;> omega)

end

/-- Dropping the contexts from `preorderCtx` yields exactly the pre-order
node list: the contexts are bookkeeping, not a change of traversal. -/
theorem preorderCtx_map_fst (n : SNode) (ctx : Ctx) :
    (preorderCtx n ctx).map Prod.fst = preorder n := by
  have key : ∀ k : Nat,
      (∀ m : SNode, sizeOf m ≤ k → ∀ c,
        (preorderCtx m c).map Prod.fst = preorder m) ∧
      (∀ l : List SNode, sizeOf l ≤ k → ∀ p pc d,
        (preorderCtxSibs p pc d l).map Prod.fst = preorderList l) := by
    intro k
    induction k with
    | zero =>
        constructor
        · intro m h
          cases m with
          | mk i cs =>
            simp at h
        · intro l h
          cases l <;> simp at h
    | succ k ih =>
        constructor
        · intro m h c
          cases m with
          | mk i cs =>
            have hcs : sizeOf cs ≤ k := by
              simp at h
              omega
            rw [preorderCtx, preorder]
            simp only [List.map_cons, SNode.children]
            rw [ih.2 cs hcs]
        · intro l h p pc d
          cases l with
          | nil =>
            rw [preorderCtxSibs, preorderList]
            rfl
          | cons c rest =>
            have hsplit : sizeOf c ≤ k ∧ sizeOf rest ≤ k := by
              simp at h
              omega
            rw [preorderCtxSibs, preorderList, List.map_append,
              ih.1 c hsplit.1, ih.2 rest hsplit.2]
  exact (key (sizeOf n)).1 n (Nat.le_refl _) ctx

/-- Context at which a whole tree is its own root: no ancestors, no
preceding siblings. -/
def rootCtx : Ctx := ⟨[], []⟩

/-- The source's `findNodesByType`, with each matched node paired with its
context; starting from node `n` whose own context is `ctx`. -/
def findNodesByTypeCtxFrom (types : List String) (n : SNode) (ctx : Ctx) :
    List (SNode × Ctx) :=
  (preorderCtx n ctx).filter (fun pr => types.contains pr.1.type)

/-- `findNodesByType(rootNode, types)` with contexts, for a whole tree. -/
def findNodesByTypeCtx (types : List String) (root : SNode) :
    List (SNode × Ctx) :=
  findNodesByTypeCtxFrom types root rootCtx

/-- The context-carrying search matches the source's `findNodesByType`
node-for-node, in order. -/
theorem findNodesByTypeCtxFrom_map_fst (types : List String) (n : SNode) (ctx : Ctx) :
    (findNodesByTypeCtxFrom types n ctx).map Prod.fst = findNodesByType n types := by
  rw [findNodesByTypeCtxFrom, findNodesByType_eq_filter_preorder, ← preorderCtx_map_fst n ctx,
    List.filter_map]
  rfl

/-!
## ASTExtractor entity derivation (`src/ASTExtractor.js`)
-/

/-- `_getNodeName`: text of the child under `fieldName || 'name'`, with the
`'anonymous'` sentinel when absent. -/
def getNodeName (node : SNode) (fieldName : String) : String :=
  match childForFieldName node (jsOr fieldName "name") with
  | some nameNode => nameNode.text
  | none => "anonymous"

/-- `_getModifiers`: texts of all descendant nodes of type `modifier`. -/
def getModifiers (node : SNode) : List String :=
  (findNodesByType node ["modifier"]).map SNode.text

/-- `_getParametersText`: raw text of the `parameters` field child, `"()"`
when absent. -/
def getParametersText (methodNode : SNode) : String :=
  match childForFieldName methodNode "parameters" with
  | some params => params.text
  | none => "()"

/-- One detailed parameter entry (`_extractParameterInfo` result). -/
structure ParamInfo where
  name : String
  type : Option String
  defaultValue : Option String
  hasDefault : Bool
  text : String
deriving Repr, DecidableEq

/-- The parameter-shape vocabulary of `_extractParameterInfo`. -/
def paramTypeVocabulary : List String :=
  ["formal_parameter", "parameter", "identifier", "typed_parameter",
   "typed_default_parameter", "default_parameter", "required_parameter",
   "optional_parameter"]

/-- `_extractParameterInfo`: accept a child only if its type is in the
vocabulary, is `identifier`, or contains `"parameter"`; name from
`name`/`pattern` field (or raw text of an `identifier`), type from `type`,
default from `value`/`default_value`. -/
def extractParameterInfo (paramNode : SNode) : Option ParamInfo :=
  if !paramTypeVocabulary.contains paramNode.type &&
      paramNode.type != "identifier" &&
      !(jsIncludes paramNode.type "parameter") then
    none
  else
    let name :=
      match childForFieldName paramNode "name" with
      | some nn => nn.text
      | none =>
          match childForFieldName paramNode "pattern" with
          | some pn => pn.text
          | none => if paramNode.type == "identifier" then paramNode.text else "unknown"
    let type := (childForFieldName paramNode "type").map SNode.text
    let defaultValue :=
      match childForFieldName paramNode "value" with
      | some v => some v.text
      | none => (childForFieldName paramNode "default_value").map SNode.text
    some { name, type, defaultValue, hasDefault := defaultValue.isSome,
           text := paramNode.text }

/-- `_getParametersDetailed`: walk the children of the `parameters` field
child, skip the `','`/`'('`/`')'` punctuation, keep recognized parameter
shapes; empty when the field is absent. -/
def getParametersDetailed (methodNode : SNode) : List ParamInfo :=
  match childForFieldName methodNode "parameters" with
  | none => []
  | some paramsNode =>
      (paramsNode.children.filter
        (fun c => !(c.type == "," || c.type == "(" || c.type == ")"))).filterMap
        extractParameterInfo

/-- `_getAccessControl`: first modifier among
public/private/protected/internal, else `"default"`. -/
def getAccessControl (modifiers : List String) : String :=
  (modifiers.find?
    (fun m => ["public", "private", "protected", "internal"].contains m)).getD "default"

/-- `_getParentInfo` result object. `extendsText`/`implementsText` model the
JS `extends`/`implements` properties (reserved words in Lean). -/
structure ParentInfo where
  className : Option String
  interfaceName : Option String
  moduleName : Option String
  type : Option String
  extendsText : Option String
  implementsText : Option String
deriving Repr, DecidableEq

/-- The parent-chain walk of `_getParentInfo`, over the ancestor chain
nearest-first: class and interface ancestors stop the walk, module ancestors
are recorded and the walk continues. -/
def getParentInfoGo (cfg : LangConfig) : List SNode → ParentInfo → ParentInfo
  | [], info => info
  | p :: rest, info =>
      if cfg.classTypes.contains p.type then
        { info with
          className := (childForFieldName p (jsOr cfg.classNameField "name")).map SNode.text
          type := some "class"
          extendsText :=
            match childForFieldName p "superclass" with
            | some s => some s.text
            | none => info.extendsText
          implementsText :=
            match childForFieldName p "interfaces" with
            | some s => some s.text
            | none => info.implementsText }
      else if p.type == "interface_declaration" then
        { info with
          interfaceName := (childForFieldName p "name").map SNode.text
          type := some "interface" }
      else if p.type == "module" || p.type == "namespace_declaration" then
        getParentInfoGo cfg rest
          { info with
            moduleName := (childForFieldName p "name").map SNode.text
            type := some "module" }
      else
        getParentInfoGo cfg rest info

/-- `_getParentInfo(node)`, with the ancestor chain from the context. -/
def getParentInfo (cfg : LangConfig) (ancs : List SNode) : ParentInfo :=
  getParentInfoGo cfg ancs
    { className := none, interfaceName := none, moduleName := none,
      type := none, extendsText := none, implementsText := none }

/-- `_isOverrideMethod`: `override` modifier, or (when the grandparent is a
`decorated_definition`) a decorator whose lowercased text contains
`"override"` or `"overrides"`. -/
def isOverrideMethod (ctx : Ctx) (modifiers : List String) : Bool :=
  if modifiers.contains "override" then true
  else
    match ctx.grandparentNode with
    | some parent =>
        if parent.type == "decorated_definition" then
          (findNodesByType parent ["decorator"]).any (fun d =>
            jsIncludes (jsToLower d.text) "override" ||
              jsIncludes (jsToLower d.text) "overrides")
        else false
    | none => false

/-- One decorator entry of `_getDecorators`. -/
structure DecoratorInfo where
  name : String
  text : String
deriving Repr, DecidableEq

/-- `_getDecorators`: decorators of a `decorated_definition` grandparent,
then every `marker_annotation`/`annotation`-typed node along the
previous-named-sibling chain, nearest first. -/
def getDecorators (ctx : Ctx) : List DecoratorInfo :=
  let fromDecorated :=
    match ctx.grandparentNode with
    | some parent =>
        if parent.type == "decorated_definition" then
          (findNodesByType parent ["decorator"]).map (fun d =>
            { name := match childForFieldName d "name" with
                      | some nn => nn.text
                      | none => d.text
              text := d.text })
        else []
    | none => []
  let fromSibs :=
    (ctx.prevSibs.filter SNode.isNamed).filterMap (fun s =>
      if s.type == "marker_annotation" || s.type == "annotation" then
        some { name := s.text, text := s.text }
      else none)
  fromDecorated ++ fromSibs

/-- `_getReturnType`: text of the `type` or `return_type` field child, with
the `"void"` sentinel when both are absent. -/
def getReturnType (methodNode : SNode) : String :=
  match childForFieldName methodNode "type" with
  | some t => t.text
  | none =>
      match childForFieldName methodNode "return_type" with
      | some t => t.text
      | none => "void"

/-- `_isAsyncMethod`: the trimmed node text starts with `"async"`. -/
def isAsyncMethod (methodNode : SNode) : Bool :=
  jsStartsWith (jsTrim methodNode.text) "async"

/-- `_isStaticMethod` (base `ASTExtractor`): a `static` modifier, or a
decorator containing `"staticmethod"` under a `decorated_definition`
grandparent. -/
def isStaticMethod (ctx : Ctx) (modifiers : List String) : Bool :=
  if modifiers.contains "static" then true
  else
    match ctx.grandparentNode with
    | some parent =>
        if parent.type == "decorated_definition" then
          (findNodesByType parent ["decorator"]).any
            (fun d => jsIncludes d.text "staticmethod")
        else false
    | none => false

/-- `PythonExtractor._isStaticMethod` (`ExtractorFactory.js`): only the
decorator check, on the decorator's `name` field text (falling back to the
whole decorator text). -/
def pythonIsStaticMethod (ctx : Ctx) (_modifiers : List String) : Bool :=
  match ctx.grandparentNode with
  | some parent =>
      if parent.type == "decorated_definition" then
        (findNodesByType parent ["decorator"]).any (fun d =>
          let nm := match childForFieldName d "name" with
                    | some nn => nn.text
                    | none => d.text
          jsIncludes nm "staticmethod")
      else false
  | none => false

/-- `_getParentClassName(node)`: walk the ancestor chain nearest-first; at
the first ancestor whose type is in `classTypes`, return the text of its
name-field child — or `null` if that nearest class node has no such child. -/
def getParentClassName (cfg : LangConfig) : List SNode → Option String
  | [] => none
  | p :: rest =>
      if cfg.classTypes.contains p.type then
        (childForFieldName p (jsOr cfg.classNameField "name")).map SNode.text
      else getParentClassName cfg rest

/-- `_getMethodSignature`: `"<returnType> <name><paramsText>"`. -/
def getMethodSignature (name parameters returnType : String) : String :=
  returnType ++ " " ++ name ++ parameters

/-- 1-based output location of a node (`location` objects of the records). -/
structure Location where
  startLine : Nat
  startColumn : Nat
  endLine : Nat
  endColumn : Nat
deriving Repr, DecidableEq

/-- Location of a node, converted from the 0-based positions. -/
def nodeLocation (n : SNode) : Location :=
  { startLine := n.startRow + 1, startColumn := n.startCol + 1,
    endLine := n.endRow + 1, endColumn := n.endCol + 1 }

/-- One method/function record of `extractMethods`.  `identifier`,
`visibility`, `parametersText`, `parametersDetailed`, `className` and
`isImplementation` are the aliases the JS object carries alongside the
primary fields. -/
structure MethodRecord where
  index : Nat
  name : String
  identifier : String
  type : String
  accessControl : String
  modifiers : List String
  visibility : String
  isStatic : Bool
  isInstance : Bool
  isAsync : Bool
  returnType : String
  parameters : String
  parametersText : String
  parametersList : List ParamInfo
  parametersDetailed : List ParamInfo
  parentClass : Option String
  className : Option String
  parentInfo : ParentInfo
  isOverride : Bool
  isImplementation : Bool
  decorators : List DecoratorInfo
  location : Location
  signature : String
deriving Repr, DecidableEq

/-- The record built for the method node at 0-based position `index` of the
matched-node list in `extractMethods`.  `isStaticFn` is the
statically-dispatched `_isStaticMethod` (base, or the Python override). -/
def makeMethodRecord (cfg : LangConfig) (isStaticFn : Ctx → List String → Bool)
    (index : Nat) (methodNode : SNode) (ctx : Ctx) : MethodRecord :=
  let methodName := getNodeName methodNode cfg.methodNameField
  let parametersText := getParametersText methodNode
  let parametersDetailed := getParametersDetailed methodNode
  let returnType := getReturnType methodNode
  let modifiers := getModifiers methodNode
  let accessControl := getAccessControl modifiers
  let isStatic := isStaticFn ctx modifiers
  let parentClass := getParentClassName cfg ctx.ancNodes
  let isOverride := isOverrideMethod ctx modifiers
  { index := index + 1
    name := methodName
    identifier := methodName
    type := methodNode.type
    accessControl := accessControl
    modifiers := modifiers
    visibility := accessControl
    isStatic := isStatic
    isInstance := !isStatic
    isAsync := isAsyncMethod methodNode
    returnType := returnType
    parameters := parametersText
    parametersText := parametersText
    parametersList := parametersDetailed
    parametersDetailed := parametersDetailed
    parentClass := parentClass
    className := parentClass
    parentInfo := getParentInfo cfg ctx.ancNodes
    isOverride := isOverride
    isImplementation := isOverride
    decorators := getDecorators ctx
    location := nodeLocation methodNode
    signature := getMethodSignature methodName parametersText returnType }

/-- `extractMethods(code, includeClassMethods)`: map every matched method
node (pre-order, with its 0-based position) to a record, drop a record when
`includeClassMethods` is false and its `parentClass` is truthy. -/
def extractMethods (cfg : LangConfig) (isStaticFn : Ctx → List String → Bool)
    (root : SNode) (includeClassMethods : Bool) : List MethodRecord :=
  (((findNodesByTypeCtx cfg.methodTypes root).enum).map (fun pr =>
      let r := makeMethodRecord cfg isStaticFn pr.1 pr.2.1 pr.2.2
      if !includeClassMethods && jsTruthy r.parentClass then none
      else some r)).filterMap id

/-- One class record of `extractClasses`. -/
structure ClassRecord where
  index : Nat
  name : String
  type : String
  modifiers : List String
  methodCount : Nat
  fieldCount : Nat
  location : Location
  text : String
deriving Repr, DecidableEq

/-- `extractClasses(code)`: one record per matched class-type node;
method/field counts are type searches scoped to the `body` field child. -/
def extractClasses (cfg : LangConfig) (root : SNode) : List ClassRecord :=
  ((findNodesByType root cfg.classTypes).enum).map (fun pr =>
    let classNode := pr.2
    let body := childForFieldName classNode "body"
    { index := pr.1 + 1
      name := getNodeName classNode cfg.classNameField
      type := classNode.type
      modifiers := getModifiers classNode
      methodCount := match body with
                     | some b => (findNodesByType b cfg.methodTypes).length
                     | none => 0
      fieldCount := match body with
                    | some b => (findNodesByType b cfg.fieldTypes).length
                    | none => 0
      location := nodeLocation classNode
      text := classNode.text })

/-- One field record of `extractFields`.  `isProperty` models the JS
property `isProperty`, set (to true) only by the C# property branch. -/
structure FieldRecord where
  index : Nat
  name : String
  type : String
  nodeType : String
  parentClass : Option String
  modifiers : List String
  isProperty : Bool
  location : Location
  text : String
deriving Repr, DecidableEq

/-- Return shape of `_extractFieldInfo`: `null`, a single record object, or
an array of records, as `extractFields` distinguishes them with
`Array.isArray`. -/
inductive FieldResult where
  | nullRes : FieldResult
  | object (r : FieldRecord) : FieldResult
  | array (rs : List FieldRecord) : FieldResult
deriving Repr, DecidableEq

/-- `_getFieldType`: text of the `type` field child, `"unknown"` sentinel
when absent. -/
def getFieldType (fieldNode : SNode) : String :=
  match childForFieldName fieldNode "type" with
  | some t => t.text
  | none => "unknown"

/-- Base `ASTExtractor._extractFieldInfo`: always a single record. -/
def baseExtractFieldInfo (cfg : LangConfig) (fieldNode : SNode) (ctx : Ctx)
    (index : Nat) : FieldResult :=
  .object
    { index := index + 1
      name := getNodeName fieldNode cfg.fieldNameField
      type := getFieldType fieldNode
      nodeType := fieldNode.type
      parentClass := getParentClassName cfg ctx.ancNodes
      modifiers := getModifiers fieldNode
      isProperty := false
      location := nodeLocation fieldNode
      text := jsTrim fieldNode.text }

/-- `extractFields(code)`: run the variant `_extractFieldInfo` on every
matched field node with its 0-based position; spread arrays, keep objects,
drop nulls. -/
def extractFields (cfg : LangConfig)
    (fieldInfoFn : SNode → Ctx → Nat → FieldResult) (root : SNode) :
    List FieldRecord :=
  ((findNodesByTypeCtx cfg.fieldTypes root).enum).flatMap (fun pr =>
    match fieldInfoFn pr.2.1 pr.2.2 pr.1 with
    | .nullRes => []
    | .object r => [r]
    | .array rs => rs)

/-- `JavaExtractor._extractFieldInfo` (`ExtractorFactory.js`): name from the
`declarator` child's `name` field; `null` when there is no declarator. -/
def javaExtractFieldInfo (cfg : LangConfig) (fieldNode : SNode) (ctx : Ctx)
    (index : Nat) : FieldResult :=
  match childForFieldName fieldNode "declarator" with
  | none => .nullRes
  | some declarator =>
      .object
        { index := index + 1
          name := match childForFieldName declarator "name" with
                  | some nn => nn.text
                  | none => "unknown"
          type := match childForFieldName fieldNode "type" with
                  | some t => t.text
                  | none => "unknown"
          nodeType := fieldNode.type
          parentClass := getParentClassName cfg ctx.ancNodes
          modifiers := getModifiers fieldNode
          isProperty := false
          location := nodeLocation fieldNode
          text := jsTrim fieldNode.text }

/-- `PythonExtractor._extractFieldInfo`: only assignments inside a class
whose left-hand side mentions `self.`; everything else is rejected. -/
def pythonExtractFieldInfo (cfg : LangConfig) (fieldNode : SNode) (ctx : Ctx)
    (index : Nat) : FieldResult :=
  let parentClass := getParentClassName cfg ctx.ancNodes
  if !(jsTruthy parentClass) then .nullRes
  else
    let nameType : String × String :=
      if fieldNode.type == "assignment" then
        (match fieldNode.children.get? 0 with
         | some l => l.text
         | none => "unknown",
         match fieldNode.children.get? 2 with
         | some r => r.type
         | none => "unknown")
      else if fieldNode.type == "expression_statement" then
        match fieldNode.children.get? 0 with
        | some child =>
            if child.type == "assignment" then
              (match child.children.get? 0 with
               | some l => l.text
               | none => "unknown",
               match child.children.get? 2 with
               | some r => r.type
               | none => "unknown")
            else ("unknown", "unknown")
        | none => ("unknown", "unknown")
      else ("unknown", "unknown")
    if nameType.1 == "unknown" || !(jsIncludes nameType.1 "self.") then .nullRes
    else
      .object
        { index := index + 1
          name := nameType.1
          type := nameType.2
          nodeType := fieldNode.type
          parentClass := parentClass
          modifiers := []
          isProperty := false
          location := nodeLocation fieldNode
          text := jsTrim fieldNode.text }

/-- `CSharpExtractor._extractFieldInfo`: a `field_declaration` yields one
record per `variable_declarator` under its `declaration` child (same
modifiers and parent class, indices `index+1, index+2, ...`); a
`property_declaration` yields one record flagged `isProperty`.  The JS
returns the single object when exactly one record was built, else the
array. -/
def csharpExtractFieldInfo (cfg : LangConfig) (fieldNode : SNode) (ctx : Ctx)
    (index : Nat) : FieldResult :=
  let fields : List FieldRecord :=
    if fieldNode.type == "field_declaration" then
      let typeNode := childForFieldName fieldNode "type"
      let modifiers := getModifiers fieldNode
      let parentClass := getParentClassName cfg ctx.ancNodes
      match childForFieldName fieldNode "declaration" with
      | none => []
      | some declaration =>
          ((findNodesByType declaration ["variable_declarator"]).enum).map (fun pr =>
            { index := index + pr.1 + 1
              name := match childForFieldName pr.2 "name" with
                      | some nn => nn.text
                      | none => "unknown"
              type := match typeNode with
                      | some t => t.text
                      | none => "unknown"
              nodeType := fieldNode.type
              parentClass := parentClass
              modifiers := modifiers
              isProperty := false
              location := nodeLocation fieldNode
              text := jsTrim pr.2.text })
    else if fieldNode.type == "property_declaration" then
      [{ index := index + 1
         name := match childForFieldName fieldNode "name" with
                 | some nn => nn.text
                 | none => "unknown"
         type := match childForFieldName fieldNode "type" with
                 | some t => t.text
                 | none => "unknown"
         nodeType := fieldNode.type
         parentClass := getParentClassName cfg ctx.ancNodes
         modifiers := getModifiers fieldNode
         isProperty := true
         location := nodeLocation fieldNode
         text := jsTrim fieldNode.text }]
    else []
  match fields with
  | [r] => .object r
  | _ => .array fields

/-- `JavaScriptExtractor._extractFieldInfo`: public field definitions map
one-to-one; lexical/variable declarations count only inside a class and
yield one record per `variable_declarator`. -/
def javascriptExtractFieldInfo (cfg : LangConfig) (fieldNode : SNode) (ctx : Ctx)
    (index : Nat) : FieldResult :=
  let parentClass := getParentClassName cfg ctx.ancNodes
  if fieldNode.type == "public_field_definition" then
    .object
      { index := index + 1
        name := match childForFieldName fieldNode "name" with
                | some nn => nn.text
                | none => "unknown"
        type := match childForFieldName fieldNode "value" with
                | some v => v.type
                | none => "undefined"
        nodeType := fieldNode.type
        parentClass := parentClass
        modifiers := []
        isProperty := false
        location := nodeLocation fieldNode
        text := jsTrim fieldNode.text }
  else if fieldNode.type == "lexical_declaration" ||
          fieldNode.type == "variable_declaration" then
    if !(jsTruthy parentClass) then .nullRes
    else
      let kind := fieldNode.children.get? 0
      .array (((findNodesByType fieldNode ["variable_declarator"]).enum).map (fun pr =>
        { index := index + pr.1 + 1
          name := match childForFieldName pr.2 "name" with
                  | some nn => nn.text
                  | none => "unknown"
          type := match childForFieldName pr.2 "value" with
                  | some v => v.type
                  | none => "undefined"
          nodeType := fieldNode.type
          parentClass := parentClass
          modifiers := match kind with
                       | some k => [k.text]
                       | none => []
          isProperty := false
          location := nodeLocation fieldNode
          text := jsTrim pr.2.text }))
  else .nullRes

/-!
## ExtractorFactory (`src/ExtractorFactory.js`)
-/

/-- Which per-language extractor subclass the factory instantiates. -/
inductive Variant where
  | java
  | python
  | csharp
  | javascript
  | generic
deriving Repr, DecidableEq

/-- An extractor instance: the subclass chosen by the factory switch plus
the language configuration passed to its constructor. -/
structure Extractor where
  variant : Variant
  config : LangConfig
deriving Repr, DecidableEq

/-- The `switch (normalizedName)` of `ExtractorFactory.createExtractor`. -/
def variantForName (normalizedName : String) : Variant :=
  if normalizedName == "java" then .java
  else if normalizedName == "python" then .python
  else if normalizedName == "csharp" then .csharp
  else if normalizedName == "javascript" || normalizedName == "js" then .javascript
  else .generic

/-- Outcome of `ExtractorFactory.createExtractor`: an extractor holding a
registered configuration, an extractor constructed with an inherited
`Object.prototype` member as its "configuration" (`junk`), or the
configuration error propagated from `getLanguageConfig`. -/
inductive CreateResult where
  | ok (ex : Extractor)
  | junk (v : Variant)
  | thrown (msg : String)
deriving Repr, DecidableEq

/-- `ExtractorFactory.createExtractor(languageName)`: resolve the
configuration first (which throws only when the property read is falsy),
then pick the subclass by the lowercased name; when `getLanguageConfig`
returned an inherited prototype member, an extractor is still constructed,
with that member passed as the config. -/
def createExtractor (languageName : String) : CreateResult :=
  match getLanguageConfig languageName with
  | .thrown e => .thrown e
  | .ok config =>
      .ok { variant := variantForName (jsToLower languageName), config := config }
  | .inherited => .junk (variantForName (jsToLower languageName))

/-- `ExtractorFactory.getSupportedLanguages()`. -/
def factorySupportedLanguages : List String :=
  ["java", "python", "csharp", "javascript"]

/-- The `_extractFieldInfo` implementation carried by each subclass. -/
def variantFieldInfo (cfg : LangConfig) : Variant → (SNode → Ctx → Nat → FieldResult)
  | .java => javaExtractFieldInfo cfg
  | .python => pythonExtractFieldInfo cfg
  | .csharp => csharpExtractFieldInfo cfg
  | .javascript => javascriptExtractFieldInfo cfg
  | .generic => baseExtractFieldInfo cfg

/-- The `_isStaticMethod` implementation carried by each subclass (only the
Python extractor overrides the base one). -/
def variantIsStatic : Variant → (Ctx → List String → Bool)
  | .python => pythonIsStaticMethod
  | _ => isStaticMethod

/-!
## CompleteExtractor (`src/CompleteExtractor.js`)

The md5 digest of a method body comes from the external `crypto` module; it
is modelled as an explicit `hashFn : String → String` parameter, which no
theorem constrains.
-/

/-- The field child of `n` named `f`, paired with its traversal context,
given `n`'s own context. -/
def fieldChildCtx (n : SNode) (ctx : Ctx) (f : String) : Option (SNode × Ctx) :=
  (n.info.fieldTable.lookup f).bind (fun i =>
    (n.children.get? i).map (fun c =>
      (c, ⟨(n, ctx.prevSibs) :: ctx.ancestors, (n.children.take i).reverse⟩)))

/-- A resolved documentation record: `{docstring, has_doc}`. -/
structure DocRecord where
  docstring : Option String
  has_doc : Bool
deriving Repr, DecidableEq

/-- The comment node types recognised by `_extractDocumentation`. -/
def commentTypes : List String := ["comment", "line_comment", "block_comment"]

/-- Step 1 (and 3) of `_extractDocumentation`: walk the preceding siblings
nearest-first, prepend each comment's text, skip `ERROR` and
whitespace-only nodes, stop at the first other node. -/
def collectPrecedingComments : List SNode → List String → List String
  | [], acc => acc
  | s :: rest, acc =>
      if commentTypes.contains s.type then
        collectPrecedingComments rest (s.text :: acc)
      else if s.type != "ERROR" && jsTrim s.text != "" then acc
      else collectPrecedingComments rest acc

/-- Step 2 of `_extractDocumentation`: walk the previous-named-sibling chain
while it consists of comments, prepending texts not already collected. -/
def addNamedComments : List SNode → List String → List String
  | [], acc => acc
  | s :: rest, acc =>
      if commentTypes.contains s.type then
        addNamedComments rest (if acc.contains s.text then acc else s.text :: acc)
      else acc

/-- Step 4 of `_extractDocumentation`: scan the body's children for the first
statement; an `expression_statement` whose first child is a `string` yields
a docstring, other non-blank, non-`ERROR` statements stop the scan. -/
def findDocstringIn : List SNode → Option String
  | [] => none
  | c :: rest =>
      if c.type == "expression_statement" then
        match c.children.head? with
        | some sn => if sn.type == "string" then some sn.text else findDocstringIn rest
        | none => findDocstringIn rest
      else if c.type != "ERROR" && jsTrim c.text != "" then none
      else findDocstringIn rest

/-- The comment texts collected by steps 1–4 of `_extractDocumentation`, in
the order the JS `comments` array holds them before joining. -/
def collectedDocTexts (node : SNode) (ctx : Ctx) : List String :=
  let c1 := collectPrecedingComments ctx.prevSibs []
  let c2 := addNamedComments (ctx.prevSibs.filter SNode.isNamed) c1
  let c3 :=
    if c2.isEmpty && !ctx.ancestors.isEmpty then
      collectPrecedingComments ctx.parentPrevSibs []
    else c2
  if node.type == "function_definition" || node.type == "class_definition" then
    match childForFieldName node "body" with
    | some body =>
        match findDocstringIn body.children with
        | some t => c3 ++ [t]
        | none => c3
    | none => c3
  else c3

/-- `_extractDocumentation`, step 5: when any text was collected, the
docstring is the newline join, trimmed, and `has_doc` is set. -/
def extractDocumentation (node : SNode) (ctx : Ctx) : DocRecord :=
  let comments := collectedDocTexts node ctx
  if comments.length > 0 then
    { docstring := some (jsTrim (jsJoin "\n" comments)), has_doc := true }
  else
    { docstring := none, has_doc := false }

/-- Per-method metrics record of `_calculateMethodMetrics`. -/
structure MethodMetrics where
  line_count : Nat
  statement_count : Nat
  branch_count : Nat
  loop_count : Nat
  nesting_depth : Nat
  cyclomatic_complexity : Nat
  return_count : Nat
  param_count : Nat
deriving Repr, DecidableEq

/-- Statement-like node types counted by `_calculateMethodMetrics`. -/
def statementTypes : List String :=
  ["expression_statement", "return_statement", "if_statement",
   "for_statement", "while_statement"]

/-- Branch node types counted by `_calculateMethodMetrics`. -/
def branchTypes : List String :=
  ["if_statement", "switch_statement", "case_clause"]

/-- Loop node types counted by `_calculateMethodMetrics`. -/
def loopTypes : List String :=
  ["for_statement", "while_statement", "do_statement"]

/-- Return-like node types counted by `_calculateMethodMetrics`. -/
def returnNodeTypes : List String := ["return_statement", "yield"]

/-- Node types that increase the nesting depth. -/
def nestingTypes : List String :=
  ["if_statement", "for_statement", "while_statement", "switch_statement",
   "try_statement"]

mutual

/-- `_calculateNestingDepth(node, currentDepth)`: maximum over all branches
of the depth reached, entering a nesting-type child increments the depth. -/
def calculateNestingDepth (node : SNode) (currentDepth : Nat) : Nat :=
  nestingDepthSibs node.children currentDepth currentDepth
termination_by sizeOf node
decreasing_by
  exact SNode.sizeOf_children_lt node

/-- The child loop of `_calculateNestingDepth`, folding the running
maximum. -/
def nestingDepthSibs (ns : List SNode) (currentDepth maxDepth : Nat) : Nat :=
  match ns with
  | [] => maxDepth
  | c :: rest =>
      let childDepth :=
        if nestingTypes.contains c.type then calculateNestingDepth c (currentDepth + 1)
        else calculateNestingDepth c currentDepth
      nestingDepthSibs rest currentDepth (max maxDepth childDepth)
termination_by sizeOf ns
decreasing_by
  all_goals (simp <;> omega)

end

/-- `_calculateMethodMetrics(methodNode)`: size, statement/branch/loop/return
counts over the subtree, nesting depth, and the simplified cyclomatic
complexity `1 + branches + loops`. -/
def calculateMethodMetrics (methodNode : SNode) : MethodMetrics :=
  let branches := findNodesByType methodNode branchTypes
  let loops := findNodesByType methodNode loopTypes
  { line_count := methodNode.endRow - methodNode.startRow + 1
    statement_count := (findNodesByType methodNode statementTypes).length
    branch_count := branches.length
    loop_count := loops.length
    nesting_depth := calculateNestingDepth methodNode 0
    cyclomatic_complexity := 1 + branches.length + loops.length
    return_count := (findNodesByType methodNode returnNodeTypes).length
    param_count :=
      match childForFieldName methodNode "parameters" with
      | some _ => (getParametersDetailed methodNode).length
      | none => 0 }

/-- `_extractMethodBody` result: truncated text plus the digest of the full
text. -/
structure BodyRecord where
  text : String
  hash : String
deriving Repr, DecidableEq

/-- `_extractMethodBody(methodNode)`; `hashFn` stands for the external
`crypto` md5 digest. -/
def extractMethodBody (hashFn : String → String) (methodNode : SNode) : BodyRecord :=
  let text := methodNode.text
  { text := if text.length > 200 then text.take 200 ++ "..." else text
    hash := hashFn text }

/-- One output parameter of a CompleteExtractor method record. -/
structure CParam where
  name : String
  type : String
  default_value : Option String
deriving Repr, DecidableEq

/-- The `parent` object of a CompleteExtractor method record. -/
structure CParent where
  type : String
  name : String
deriving Repr, DecidableEq

/-- A `{file, start_line, end_line}` location. -/
structure CLocation where
  file : String
  start_line : Nat
  end_line : Nat
deriving Repr, DecidableEq

/-- A CompleteExtractor method record (the constant `analysis: {issues: []}`
field is omitted). -/
structure CMethodRecord where
  id : String
  name : String
  qualified_name : String
  language : String
  location : CLocation
  modifiers : List String
  return_type : String
  parameters : List CParam
  parent : Option CParent
  metrics : MethodMetrics
  documentation : DocRecord
  body : BodyRecord
deriving Repr, DecidableEq

/-- JavaScript `p.type || 'any'` of the parameter-type strings. -/
def paramTypeOrAny (p : ParamInfo) : String :=
  match p.type with
  | some t => jsOr t "any"
  | none => "any"

/-- The record built per method node by `_extractClassMethodsComplete`:
id `"<class>.<name>(<paramTypes>)-><returnType>"`, qualified name
`"<class>.<name>"`, parent type `'class'` with the class name. -/
def makeCMethodRecord (cfg : LangConfig) (hashFn : String → String)
    (filePath language className : String) (methodNode : SNode) (ctx : Ctx) :
    CMethodRecord :=
  let methodName := getNodeName methodNode cfg.methodNameField
  let returnType := getReturnType methodNode
  let parametersDetailed := getParametersDetailed methodNode
  let paramTypes := jsJoin "," (parametersDetailed.map paramTypeOrAny)
  { id := className ++ "." ++ methodName ++ "(" ++ paramTypes ++ ")->" ++ returnType
    name := methodName
    qualified_name := className ++ "." ++ methodName
    language := language
    location := { file := filePath, start_line := methodNode.startRow + 1,
                  end_line := methodNode.endRow + 1 }
    modifiers := getModifiers methodNode
    return_type := returnType
    parameters := parametersDetailed.map (fun p =>
      { name := p.name, type := paramTypeOrAny p, default_value := p.defaultValue })
    parent := some { type := "class", name := className }
    metrics := calculateMethodMetrics methodNode
    documentation := extractDocumentation methodNode ctx
    body := extractMethodBody hashFn methodNode }

/-- `_extractClassMethodsComplete(classNode, ...)`: a type search over the
entire `body` subtree (so methods of nested classes are included), one
record per hit, all qualified with this class's name. -/
def extractClassMethodsComplete (cfg : LangConfig) (hashFn : String → String)
    (filePath language className : String) (classNode : SNode) (classCtx : Ctx) :
    List CMethodRecord :=
  match fieldChildCtx classNode classCtx "body" with
  | none => []
  | some (body, bodyCtx) =>
      (findNodesByTypeCtxFrom cfg.methodTypes body bodyCtx).map (fun pr =>
        makeCMethodRecord cfg hashFn filePath language className pr.1 pr.2)

/-- One field entry of a CompleteExtractor class record. -/
structure CField where
  name : String
  type : String
  modifiers : List String
  default_value : Option String
deriving Repr, DecidableEq

/-- `_extractClassFields(classNode)`: base `_extractFieldInfo` (always with
index 0) over the field-type nodes of the body subtree, keeping name, type
and modifiers. -/
def extractClassFields (cfg : LangConfig) (classNode : SNode) (classCtx : Ctx) :
    List CField :=
  match fieldChildCtx classNode classCtx "body" with
  | none => []
  | some (body, bodyCtx) =>
      (findNodesByTypeCtxFrom cfg.fieldTypes body bodyCtx).flatMap (fun pr =>
        match baseExtractFieldInfo cfg pr.1 pr.2 0 with
        | .nullRes => []
        | .object r =>
            [{ name := r.name, type := r.type, modifiers := r.modifiers,
               default_value := none }]
        | .array rs => rs.map (fun f =>
            { name := f.name, type := f.type, modifiers := f.modifiers,
              default_value := none }))

/-- Per-class metrics record of `_calculateClassMetrics`. -/
structure ClassMetrics where
  method_count : Nat
  field_count : Nat
  line_count : Nat
  comment_lines : Nat
deriving Repr, DecidableEq

/-- `_calculateClassMetrics(classNode, fields, methods)`: counts are the
lengths of the lists just built; comment lines are summed over every comment
node in the class subtree. -/
def calculateClassMetrics (classNode : SNode) (fields : List CField)
    (methods : List CMethodRecord) : ClassMetrics :=
  { method_count := methods.length
    field_count := fields.length
    line_count := classNode.endRow - classNode.startRow + 1
    comment_lines :=
      ((findNodesByType classNode ["comment", "block_comment", "line_comment"]).map
        (fun c => c.endRow - c.startRow + 1)).sum }

/-- One whitespace character at the head? (regex `\s`). -/
def headIsWs : List Char → Bool
  | [] => false
  | c :: _ => c.isWhitespace

/-- Length of the maximal whitespace run at the head (regex `\s+`,
greedy). -/
def wsRunLen : List Char → Nat
  | [] => 0
  | c :: rest => if c.isWhitespace then wsRunLen rest + 1 else 0

/-- Number of characters the regex `/<kw>\s+|:\s+/` consumes at the head of
`s`; 0 when it does not match there. -/
def altMatchLen (kw : List Char) (s : List Char) : Nat :=
  if kw.isPrefixOf s && headIsWs (s.drop kw.length) then
    kw.length + wsRunLen (s.drop kw.length)
  else if s.head? == some ':' && headIsWs (s.drop 1) then
    1 + wsRunLen (s.drop 1)
  else 0

/-- JavaScript `String.replace(/<kw>\s+|:\s+/g, '')`: scan left to right,
removing each match. -/
def replaceAlt (kw : List Char) (s : List Char) : List Char :=
  match s with
  | [] => []
  | c :: rest =>
      let m := altMatchLen kw (c :: rest)
      if _h : m = 0 then c :: replaceAlt kw rest
      else replaceAlt kw ((c :: rest).drop m)
termination_by s.length
decreasing_by
  · simp
  · simp
    omega

/-- `_getSuperclass(classNode)`: text of the `superclass` field child with
`extends`/`:` markers stripped and trimmed; `null` when absent. -/
def getSuperclass (classNode : SNode) : Option String :=
  match childForFieldName classNode "superclass" with
  | some s => some (jsTrim (String.mk (replaceAlt "extends".toList s.text.toList)))
  | none => none

/-- `_getInterfaces(classNode)`: the `interfaces` field child's text with
`implements`/`:` markers stripped, split on `','` and trimmed; empty when
absent. -/
def getInterfaces (classNode : SNode) : List String :=
  match childForFieldName classNode "interfaces" with
  | none => []
  | some node =>
      let cleaned := jsTrim (String.mk (replaceAlt "implements".toList node.text.toList))
      (jsSplitOnComma cleaned).map jsTrim

/-- A CompleteExtractor class record (the constant `attributes: []` and
`analysis` fields are kept/omitted as constants). -/
structure CClassRecord where
  id : String
  name : String
  qualified_name : String
  modifiers : List String
  type : String
  location : CLocation
  superclass : Option String
  interfaces : List String
  attributes : List String
  fields : List CField
  methods : List CMethodRecord
  metrics : ClassMetrics
  documentation : DocRecord
deriving Repr, DecidableEq

/-- `_extractClassesComplete(rootNode, ...)`: one record per class-type node
found anywhere in the tree (nested classes included), each with its own
body-wide method search. -/
def extractClassesComplete (cfg : LangConfig) (hashFn : String → String)
    (filePath language : String) (root : SNode) : List CClassRecord :=
  (findNodesByTypeCtx cfg.classTypes root).map (fun pr =>
    let classNode := pr.1
    let ctx := pr.2
    let className := getNodeName classNode cfg.classNameField
    let fields := extractClassFields cfg classNode ctx
    let methods :=
      extractClassMethodsComplete cfg hashFn filePath language className classNode ctx
    { id := className
      name := className
      qualified_name := className
      modifiers := getModifiers classNode
      type := "class"
      location := { file := filePath, start_line := classNode.startRow + 1,
                    end_line := classNode.endRow + 1 }
      superclass := getSuperclass classNode
      interfaces := getInterfaces classNode
      attributes := []
      fields := fields
      methods := methods
      metrics := calculateClassMetrics classNode fields methods
      documentation := extractDocumentation classNode ctx })

/-!
## Test fixtures

Concrete trees used by the witnesses and counterexamples.  All positions
are zero; only structure, types, texts, named flags and field tables
matter for the properties at hand.
-/

/-- Named test node with zeroed positions. -/
def mkN (type text : String) (fieldTable : List (String × Nat))
    (children : List SNode) : SNode :=
  .mk { type := type, text := text, isNamed := true, startRow := 0, startCol := 0,
        endRow := 0, endCol := 0, fieldTable := fieldTable } children

/-- Anonymous (token) test node with zeroed positions. -/
def mkA (type text : String) : SNode :=
  .mk { type := type, text := text, isNamed := false, startRow := 0, startCol := 0,
        endRow := 0, endCol := 0, fieldTable := [] } []

/-!
## Claim theorems
-/

/-- C8: for every root node and set of type names, `findNodesByType` returns
the matching nodes in depth-first pre-order: the result is exactly the
pre-order node list — each parent listed before its children's subtrees,
siblings left to right — filtered by type membership, computed as a pure
function of the tree. -/
theorem c8_findNodesByType_is_preorder_filter (node : SNode) (types : List String) :
    findNodesByType node types =
        (preorder node).filter (fun m => types.contains m.type) ∧
      preorder node = node :: preorderList node.children := by
  exact ⟨findNodesByType_eq_filter_preorder node types, by rw [preorder]⟩

/-- C4: for every method node, the computed `cyclomatic_complexity` equals
`1 + branch_count + loop_count`, where `branch_count` is the number of
if/switch/case-clause nodes and `loop_count` the number of for/while/do
nodes in the method's subtree. -/
theorem c4_cyclomatic_complexity (methodNode : SNode) :
    (calculateMethodMetrics methodNode).cyclomatic_complexity =
        1 + (calculateMethodMetrics methodNode).branch_count +
          (calculateMethodMetrics methodNode).loop_count ∧
      (calculateMethodMetrics methodNode).branch_count =
        ((preorder methodNode).filter (fun m =>
          ["if_statement", "switch_statement", "case_clause"].contains m.type)).length ∧
      (calculateMethodMetrics methodNode).loop_count =
        ((preorder methodNode).filter (fun m =>
          ["for_statement", "while_statement", "do_statement"].contains m.type)).length := by
  refine ⟨rfl, ?_, ?_⟩ <;>
    simp [calculateMethodMetrics, branchTypes, loopTypes,
      findNodesByType_eq_filter_preorder]

/-- C7 counterexample: `"constructor"` and `"__proto__"` are unknown
language ids (not keys of the configuration map, not in the supported
list), yet the factory throws nothing for them: the property read hits the
truthy inherited `Object.prototype` member, `getLanguageConfig` passes its
`if (!config)` check, and `createExtractor` constructs a generic base
extractor around that member.  This refutes "every unsupported or unknown
language id fails fast with a configuration error and constructs no
extractor". -/
theorem c7_counterexample :
    (LanguageConfigMap.lookup (jsToLower "constructor") = none ∧
      "constructor" ∉ factorySupportedLanguages ∧
      createExtractor "constructor" = .junk .generic) ∧
    (LanguageConfigMap.lookup (jsToLower "__proto__") = none ∧
      "__proto__" ∉ factorySupportedLanguages ∧
      createExtractor "__proto__" = .junk .generic) := by
  decide

/-- C7 amended: the factory is a pure mapping from the language id.  An id
whose lowercased form is neither a configuration-map key nor an
`Object.prototype` property name produces the configuration error and no
extractor; a successful result carries exactly the configuration registered
for that id with the subclass chosen by the factory switch; but an id whose
lowercased form is an inherited `Object.prototype` property name (reachable:
`constructor`, `__proto__`) escapes the error path and yields an extractor
constructed with that inherited member in place of a configuration. -/
theorem c7_factory_pure_mapping (languageName : String) :
    ((∃ e, createExtractor languageName = .thrown e) ↔
        (LanguageConfigMap.lookup (jsToLower languageName) = none ∧
          objectPrototypeProps.contains (jsToLower languageName) = false)) ∧
      (LanguageConfigMap.lookup (jsToLower languageName) = none →
        objectPrototypeProps.contains (jsToLower languageName) = false →
        createExtractor languageName = .thrown ("不支持的语言: " ++ languageName)) ∧
      (∀ ex, createExtractor languageName = .ok ex →
        LanguageConfigMap.lookup (jsToLower languageName) = some ex.config ∧
          ex.variant = variantForName (jsToLower languageName)) ∧
      (LanguageConfigMap.lookup (jsToLower languageName) = none →
        objectPrototypeProps.contains (jsToLower languageName) = true →
        createExtractor languageName =
          .junk (variantForName (jsToLower languageName))) := by
  refine ⟨?_, ?_, ?_, ?_⟩
  · rw [createExtractor, getLanguageConfig, languageConfigMapGet]
    cases LanguageConfigMap.lookup (jsToLower languageName) with
    | none =>
        cases h : objectPrototypeProps.contains (jsToLower languageName) <;> simp [h]
    | some cfg => simp
  · intro h1 h2
    rw [createExtractor, getLanguageConfig, languageConfigMapGet, h1, h2]
    rfl
  · intro ex hex
    rw [createExtractor, getLanguageConfig, languageConfigMapGet] at hex
    cases h : LanguageConfigMap.lookup (jsToLower languageName) <;> rw [h] at hex
    · cases h2 : objectPrototypeProps.contains (jsToLower languageName) <;>
        rw [h2] at hex <;> cases hex
    · cases hex
      exact ⟨rfl, rfl⟩
  · intro h1 h2
    rw [createExtractor, getLanguageConfig, languageConfigMapGet, h1, h2]
    rfl

/-- C1 amended: `_getParentClassName` resolves to the *nearest* enclosing
class-type ancestor (`List.find?` over the nearest-first ancestor chain) and
returns that ancestor's name-field text; it is non-null iff such an ancestor
exists *and* carries a name-field child — a nested node under a nameless
class-type ancestor yields null. -/
theorem c1_parent_class_nearest (cfg : LangConfig) (ancs : List SNode) :
    getParentClassName cfg ancs =
        ((ancs.find? (fun a => cfg.classTypes.contains a.type)).bind
          (fun p => (childForFieldName p (jsOr cfg.classNameField "name")).map SNode.text)) ∧
      ((getParentClassName cfg ancs).isSome ↔
        ∃ p, ancs.find? (fun a => cfg.classTypes.contains a.type) = some p ∧
          (childForFieldName p (jsOr cfg.classNameField "name")).isSome) := by
  have h1 : getParentClassName cfg ancs =
      ((ancs.find? (fun a => cfg.classTypes.contains a.type)).bind
        (fun p => (childForFieldName p (jsOr cfg.classNameField "name")).map SNode.text)) := by
    induction ancs with
    | nil => rfl
    | cons p rest ih =>
        rw [getParentClassName, List.find?_cons]
        cases h : cfg.classTypes.contains p.type
        · simpa using ih
        · simp
  refine ⟨h1, ?_⟩
  rw [h1]
  cases hf : ancs.find? (fun a => cfg.classTypes.contains a.type) with
  | none => simp
  | some p =>
      cases hc : childForFieldName p (jsOr cfg.classNameField "name") <;> simp [hc]

/-- Java tree for the C1 counterexample: an anonymous class declaration
(no `name` field child) containing one method. -/
def c1Tree : SNode :=
  mkN "program" "class ... void m() ..." []
    [mkN "class_declaration" "class ... void m() ..." [("body", 1)]
      [mkA "class" "class",
       mkN "class_body" "... void m() ..." []
         [mkN "method_declaration" "void m() ..." [("type", 0), ("name", 1)]
           [mkN "void_type" "void" [] [],
            mkN "identifier" "m" [] []]]]]

/-- C1 counterexample: in `c1Tree` the single extracted method is nested (at
depth 2) inside a `class_declaration` node, yet its `parentClass` is null,
because the nearest class-type ancestor has no name-field child.  This
refutes "parentClass is non-null iff the node is nested inside a class-type
node". -/
theorem c1_counterexample :
    (extractMethods JavaConfig isStaticMethod c1Tree true).map
        (fun r => r.parentClass) = [none] ∧
      (findNodesByTypeCtx JavaConfig.methodTypes c1Tree).map
        (fun pr => (pr.2.ancNodes.map SNode.type).contains "class_declaration") = [true] := by
  constructor <;>
    simp [c1Tree, mkN, mkA, extractMethods, findNodesByTypeCtx, findNodesByTypeCtxFrom,
      rootCtx, preorderCtx, preorderCtxSibs, makeMethodRecord, getParentClassName,
      childForFieldName, jsOr, jsTruthy, SNode.type, SNode.text, SNode.info,
      SNode.children, Ctx.ancNodes, JavaConfig, List.enum, List.lookup]

/-- With `includeClassMethods = true` nothing is filtered: the result is the
plain per-node record map. -/
theorem extractMethods_true_eq_map (cfg : LangConfig)
    (isStaticFn : Ctx → List String → Bool) (root : SNode) :
    extractMethods cfg isStaticFn root true =
      ((findNodesByTypeCtx cfg.methodTypes root).enum).map
        (fun pr => makeMethodRecord cfg isStaticFn pr.1 pr.2.1 pr.2.2) := by
  rw [extractMethods]
  induction (findNodesByTypeCtx cfg.methodTypes root).enum with
  | nil => rfl
  | cons hd tl ih =>
      simpa using ih

/-- `extractMethods(code, false)` equals `extractMethods(code, true)` with
the records whose `parentClass` is truthy (non-null and non-empty) filtered
out: the same records, built from the same enumeration, survive. -/
theorem extractMethods_false_eq_filter (cfg : LangConfig)
    (isStaticFn : Ctx → List String → Bool) (root : SNode) :
    extractMethods cfg isStaticFn root false =
      (extractMethods cfg isStaticFn root true).filter
        (fun r => !jsTruthy r.parentClass) := by
  rw [extractMethods, extractMethods_true_eq_map]
  induction (findNodesByTypeCtx cfg.methodTypes root).enum with
  | nil => rfl
  | cons hd tl ih =>
      simp only [List.map_cons, List.filterMap_cons, List.filter_cons]
      cases h : jsTruthy (makeMethodRecord cfg isStaticFn hd.1 hd.2.1 hd.2.2).parentClass
      · simpa [h] using ih
      · simpa [h] using ih

/-- Mapping `fun pr => pr.1 + 1` over `List.enumFrom k l` yields the
consecutive run `k+1, ..., k+l.length`. -/
theorem enumFrom_map_add_one {α : Type} (l : List α) :
    ∀ k : Nat, (List.enumFrom k l).map (fun pr => pr.1 + 1) =
      List.range' (k + 1) l.length := by
  induction l with
  | nil => intro k; rfl
  | cons a tl ih =>
      intro k
      simp only [List.enumFrom, List.map_cons, List.length_cons, List.range'_succ]
      rw [ih (k + 1)]

/-- C2 counterexample tree: a Java class whose name node has empty text
(a zero-width `MISSING` identifier under error recovery) containing one
method. -/
def c2Tree : SNode :=
  mkN "program" "class  ... void m() ..." []
    [mkN "class_declaration" "class  ... void m() ..." [("name", 1), ("body", 2)]
      [mkA "class" "class",
       mkN "identifier" "" [] [],
       mkN "class_body" "... void m() ..." []
         [mkN "method_declaration" "void m() ..." [("type", 0), ("name", 1)]
           [mkN "void_type" "void" [] [],
            mkN "identifier" "m" [] []]]]]

/-- C2 counterexample: with `includeClassMethods = false`, the method of
`c2Tree` survives the filter although its `parentClass` is non-null (it is
`some ""`, which is falsy in JavaScript): the excluded set is *not* exactly
the records with non-null `parentClass`. -/
theorem c2_counterexample :
    (extractMethods JavaConfig isStaticMethod c2Tree false).map
      (fun r => r.parentClass) = [some ""] := by
  simp [c2Tree, mkN, mkA, extractMethods, findNodesByTypeCtx, findNodesByTypeCtxFrom,
    rootCtx, preorderCtx, preorderCtxSibs, makeMethodRecord, getParentClassName,
    childForFieldName, jsOr, jsTruthy, SNode.type, SNode.text, SNode.info,
    SNode.children, Ctx.ancNodes, JavaConfig, List.enum, List.lookup]

/-- C2 amended: `extractMethods(code, false)` is a sublist (hence subset) of
`extractMethods(code, true)`, and the excluded records are exactly those
whose `parentClass` is truthy — non-null *and* non-empty (a record whose
parent class resolves to the empty string is kept, see
`c2_counterexample`). -/
theorem c2_subset_and_truthy_exclusion (cfg : LangConfig)
    (isStaticFn : Ctx → List String → Bool) (root : SNode) :
    (extractMethods cfg isStaticFn root false =
        (extractMethods cfg isStaticFn root true).filter
          (fun r => !jsTruthy r.parentClass)) ∧
      extractMethods cfg isStaticFn root false ⊆
        extractMethods cfg isStaticFn root true := by
  refine ⟨extractMethods_false_eq_filter cfg isStaticFn root, ?_⟩
  rw [extractMethods_false_eq_filter cfg isStaticFn root]
  exact (List.filter_sublist _).subset

/-- Witness for C2 (amended) at the concrete `c2Tree`: the filtered list is
a subset of the full list. -/
theorem c2_subset_and_truthy_exclusion_witness :
    extractMethods JavaConfig isStaticMethod c2Tree false ⊆
      extractMethods JavaConfig isStaticMethod c2Tree true :=
  (c2_subset_and_truthy_exclusion JavaConfig isStaticMethod c2Tree).2

/-- Java tree for the C9 index demonstration: a class with one method,
followed by one top-level method. -/
def c9Tree : SNode :=
  mkN "program" "" []
    [mkN "class_declaration" "class C ... void m1() ..." [("name", 1), ("body", 2)]
      [mkA "class" "class",
       mkN "identifier" "C" [] [],
       mkN "class_body" "... void m1() ..." []
         [mkN "method_declaration" "void m1() ..." [("type", 0), ("name", 1)]
           [mkN "void_type" "void" [] [],
            mkN "identifier" "m1" [] []]]],
     mkN "method_declaration" "void m2() ..." [("type", 0), ("name", 1)]
       [mkN "void_type" "void" [] [],
        mkN "identifier" "m2" [] []]]

/-- C9: each record's `index` is its 1-based position in the full pre-order
matched-node list (`1, ..., N` with `includeClassMethods = true`), assigned
before filtering; with `includeClassMethods = false` the survivors keep
their original indices — in `c9Tree`, the surviving top-level method keeps
index 2, so the indices need not be contiguous nor start at 1. -/
theorem c9_index_assignment (cfg : LangConfig)
    (isStaticFn : Ctx → List String → Bool) (root : SNode) :
    ((extractMethods cfg isStaticFn root true).map (fun r => r.index) =
        List.range' 1 (findNodesByType root cfg.methodTypes).length) ∧
      (extractMethods cfg isStaticFn root false =
        (extractMethods cfg isStaticFn root true).filter
          (fun r => !jsTruthy r.parentClass)) ∧
      (extractMethods JavaConfig isStaticMethod c9Tree false).map
        (fun r => r.index) = [2] := by
  refine ⟨?_, extractMethods_false_eq_filter cfg isStaticFn root, ?_⟩
  · rw [extractMethods_true_eq_map, List.map_map]
    have hlen : (findNodesByTypeCtx cfg.methodTypes root).length =
        (findNodesByType root cfg.methodTypes).length := by
      rw [← findNodesByTypeCtxFrom_map_fst cfg.methodTypes root rootCtx,
        List.length_map]
      rfl
    calc ((findNodesByTypeCtx cfg.methodTypes root).enum).map
          ((fun r => r.index) ∘ fun pr => makeMethodRecord cfg isStaticFn pr.1 pr.2.1 pr.2.2)
        = ((findNodesByTypeCtx cfg.methodTypes root).enum).map (fun pr => pr.1 + 1) := rfl
      _ = List.range' 1 (findNodesByTypeCtx cfg.methodTypes root).length := by
          rw [List.enum, enumFrom_map_add_one]
      _ = List.range' 1 (findNodesByType root cfg.methodTypes).length := by rw [hlen]
  · simp [c9Tree, mkN, mkA, extractMethods, findNodesByTypeCtx, findNodesByTypeCtxFrom,
      rootCtx, preorderCtx, preorderCtxSibs, makeMethodRecord, getParentClassName,
      childForFieldName, jsOr, jsTruthy, SNode.type, SNode.text, SNode.info,
      SNode.children, Ctx.ancNodes, JavaConfig, List.enum, List.lookup]

/-- C5: missing fields degrade non-fatally to sentinels in the (total)
record construction: an absent name field yields name `"anonymous"`, absent
`type`/`return_type` fields yield returnType `"void"`, an absent
`parameters` field yields paramsText `"()"` and an empty detailed list, and
a `parameters` child holding only `(`/`)`/`,` punctuation (a zero-parameter
method) yields an empty detailed list with paramsText equal to its text. -/
theorem c5_missing_field_defaults (cfg : LangConfig)
    (isStaticFn : Ctx → List String → Bool) (i : Nat) (node : SNode) (ctx : Ctx) :
    (cfg.methodNameField ≠ "" →
      childForFieldName node cfg.methodNameField = none →
      (makeMethodRecord cfg isStaticFn i node ctx).name = "anonymous") ∧
    (childForFieldName node "type" = none →
      childForFieldName node "return_type" = none →
      (makeMethodRecord cfg isStaticFn i node ctx).returnType = "void") ∧
    (childForFieldName node "parameters" = none →
      (makeMethodRecord cfg isStaticFn i node ctx).parametersText = "()" ∧
        (makeMethodRecord cfg isStaticFn i node ctx).parametersList = []) ∧
    (∀ p, childForFieldName node "parameters" = some p →
      (∀ c ∈ p.children, c.type = "(" ∨ c.type = ")" ∨ c.type = ",") →
      (makeMethodRecord cfg isStaticFn i node ctx).parametersText = p.text ∧
        (makeMethodRecord cfg isStaticFn i node ctx).parametersList = []) := by
  refine ⟨?_, ?_, ?_, ?_⟩
  · intro hne hnone
    show getNodeName node cfg.methodNameField = "anonymous"
    rw [getNodeName, jsOr, if_neg hne, hnone]
  · intro h1 h2
    show getReturnType node = "void"
    rw [getReturnType, h1, h2]
  · intro hnone
    constructor
    · show getParametersText node = "()"
      rw [getParametersText, hnone]
    · show getParametersDetailed node = []
      rw [getParametersDetailed, hnone]
  · intro p hp hpunct
    constructor
    · show getParametersText node = p.text
      rw [getParametersText, hp]
    · show getParametersDetailed node = []
      rw [getParametersDetailed, hp]
      have hnil : p.children.filter
          (fun c => !(c.type == "," || c.type == "(" || c.type == ")")) = [] := by
        rw [List.filter_eq_nil_iff]
        intro c hc
        rcases hpunct c hc with h | h | h <;> simp [h]
      show List.filterMap extractParameterInfo
        (p.children.filter (fun c => !(c.type == "," || c.type == "(" || c.type == ")"))) = []
      rw [hnil]
      rfl

/-- Bare method node for the C5 witness: no fields at all. -/
def c5Bare : SNode := mkN "method_declaration" "" [] []

/-- Zero-parameter method node for the C5 witness: a `parameters` child
with text `"()"` and only punctuation children. -/
def c5Params : SNode :=
  mkN "method_declaration" "m()" [("parameters", 0)]
    [mkN "parameter_list" "()" [] [mkA "(" "(", mkA ")" ")"]]

/-- Witness for C5: the sentinel values on a concrete field-less method
node, and the empty parameter list of a concrete zero-parameter method. -/
theorem c5_missing_field_defaults_witness :
    ((makeMethodRecord JavaConfig isStaticMethod 0 c5Bare rootCtx).name = "anonymous" ∧
      (makeMethodRecord JavaConfig isStaticMethod 0 c5Bare rootCtx).returnType = "void" ∧
      (makeMethodRecord JavaConfig isStaticMethod 0 c5Bare rootCtx).parametersText = "()" ∧
      (makeMethodRecord JavaConfig isStaticMethod 0 c5Bare rootCtx).parametersList = []) ∧
    ((makeMethodRecord JavaConfig isStaticMethod 0 c5Params rootCtx).parametersText = "()" ∧
      (makeMethodRecord JavaConfig isStaticMethod 0 c5Params rootCtx).parametersList = []) :=
  ⟨⟨(c5_missing_field_defaults JavaConfig isStaticMethod 0 c5Bare rootCtx).1
      (by decide) (by rfl),
    (c5_missing_field_defaults JavaConfig isStaticMethod 0 c5Bare rootCtx).2.1
      (by rfl) (by rfl),
    (c5_missing_field_defaults JavaConfig isStaticMethod 0 c5Bare rootCtx).2.2.1
      (by rfl)⟩,
   (c5_missing_field_defaults JavaConfig isStaticMethod 0 c5Params rootCtx).2.2.2
     (mkN "parameter_list" "()" [] [mkA "(" "(", mkA ")" ")"]) (by rfl)
     (by decide)⟩

/-- The inline `nameNode ? nameNode.text : 'unknown'` of the C# declarator
loop. -/
def declaratorName (v : SNode) : String :=
  match childForFieldName v "name" with
  | some nn => nn.text
  | none => "unknown"

/-- C6: when the C# extractor's field search matches exactly one node, a
`field_declaration` whose `declaration` child holds exactly three
`variable_declarator` nodes, `extractFields` yields exactly three records —
one per declarator, in order — with indices 1, 2, 3 and all sharing one
parentClass and one modifier list. -/
theorem c6_three_sibling_declarators (root n d v1 v2 v3 : SNode)
    (h1 : (findNodesByTypeCtx CSharpConfig.fieldTypes root).map Prod.fst = [n])
    (h2 : n.type = "field_declaration")
    (h3 : childForFieldName n "declaration" = some d)
    (h4 : findNodesByType d ["variable_declarator"] = [v1, v2, v3]) :
    ∃ pc mods,
      (extractFields CSharpConfig (csharpExtractFieldInfo CSharpConfig) root).map
          (fun r => (r.index, r.name, r.parentClass, r.modifiers)) =
        [(1, declaratorName v1, pc, mods),
         (2, declaratorName v2, pc, mods),
         (3, declaratorName v3, pc, mods)] := by
  rcases hL : findNodesByTypeCtx CSharpConfig.fieldTypes root with _ | ⟨pr, tl⟩
  · rw [hL] at h1
    cases h1
  · rw [hL] at h1
    have hsplit : pr.1 = n ∧ List.map Prod.fst tl = [] := by simpa using h1
    have htl : tl = [] := by simpa using hsplit.2
    have hpr : pr.1 = n := hsplit.1
    subst hpr
    subst htl
    refine ⟨getParentClassName CSharpConfig pr.2.ancNodes, getModifiers pr.1, ?_⟩
    have hinfo : csharpExtractFieldInfo CSharpConfig pr.1 pr.2 0 =
        .array [
          { index := 1, name := declaratorName v1, type := getFieldType pr.1,
            nodeType := pr.1.type,
            parentClass := getParentClassName CSharpConfig pr.2.ancNodes,
            modifiers := getModifiers pr.1, isProperty := false,
            location := nodeLocation pr.1, text := jsTrim v1.text },
          { index := 2, name := declaratorName v2, type := getFieldType pr.1,
            nodeType := pr.1.type,
            parentClass := getParentClassName CSharpConfig pr.2.ancNodes,
            modifiers := getModifiers pr.1, isProperty := false,
            location := nodeLocation pr.1, text := jsTrim v2.text },
          { index := 3, name := declaratorName v3, type := getFieldType pr.1,
            nodeType := pr.1.type,
            parentClass := getParentClassName CSharpConfig pr.2.ancNodes,
            modifiers := getModifiers pr.1, isProperty := false,
            location := nodeLocation pr.1, text := jsTrim v3.text }] := by
      rw [csharpExtractFieldInfo]
      simp [h2, h3, h4, getFieldType, declaratorName, List.enum, List.enumFrom]
    rw [extractFields, hL]
    simp [hinfo, List.enum, List.enumFrom]

/-- C# variable declarator with a name child, for the C6 witness. -/
def c6V (nm : String) : SNode :=
  mkN "variable_declarator" nm [("name", 0)] [mkN "identifier" nm [] []]

/-- The `declaration` child with three sibling declarators. -/
def c6Decl : SNode :=
  mkN "variable_declaration" "int a, b, c" []
    [c6V "a", mkA "," ",", c6V "b", mkA "," ",", c6V "c"]

/-- The C# field declaration statement with three declarators. -/
def c6FieldNode : SNode :=
  mkN "field_declaration" "int a, b, c;" [("type", 0), ("declaration", 1)]
    [mkN "predefined_type" "int" [] [], c6Decl]

/-- C# tree for the C6 witness: one class `K` holding the three-declarator
field statement. -/
def c6Tree : SNode :=
  mkN "compilation_unit" "" []
    [mkN "class_declaration" "class K ... int a, b, c; ..." [("name", 1), ("body", 2)]
      [mkA "class" "class",
       mkN "identifier" "K" [] [],
       mkN "declaration_list" "... int a, b, c; ..." [] [c6FieldNode]]]

/-- Witness for C6 on the concrete `c6Tree`. -/
theorem c6_three_sibling_declarators_witness :
    ∃ pc mods,
      (extractFields CSharpConfig (csharpExtractFieldInfo CSharpConfig) c6Tree).map
          (fun r => (r.index, r.name, r.parentClass, r.modifiers)) =
        [(1, declaratorName (c6V "a"), pc, mods),
         (2, declaratorName (c6V "b"), pc, mods),
         (3, declaratorName (c6V "c"), pc, mods)] :=
  c6_three_sibling_declarators c6Tree c6FieldNode c6Decl (c6V "a") (c6V "b") (c6V "c")
    (by simp [c6Tree, c6FieldNode, c6Decl, c6V, mkN, mkA, findNodesByTypeCtx,
      findNodesByTypeCtxFrom, rootCtx, preorderCtx, preorderCtxSibs, SNode.type,
      SNode.info, SNode.children, CSharpConfig])
    (by rfl) (by rfl)
    (by simp [c6Decl, c6V, mkA, mkN, findNodesByType, findNodesInList, SNode.type,
      SNode.info, SNode.children])

/-- C3 amended: `has_doc` is true iff at least one comment/docstring text
was collected (equivalently, iff `docstring` is non-null); the docstring is
then the newline join of the collected texts, trimmed — which may itself be
empty, see `c3_counterexample`. -/
theorem c3_has_doc_iff_collected (node : SNode) (ctx : Ctx) :
    ((extractDocumentation node ctx).has_doc = true ↔
        collectedDocTexts node ctx ≠ []) ∧
      ((extractDocumentation node ctx).has_doc = true ↔
        ((extractDocumentation node ctx).docstring).isSome = true) ∧
      (∀ s, (extractDocumentation node ctx).docstring = some s →
        s = jsTrim (jsJoin "\n" (collectedDocTexts node ctx))) := by
  rw [extractDocumentation]
  cases h : collectedDocTexts node ctx with
  | nil => simp
  | cons a tl => simp

/-- Example method node for the C3 witness. -/
def c3wNode : SNode := mkN "method_declaration" "void m() ..." [] []

/-- Context of `c3wNode`: one preceding comment. -/
def c3wCtx : Ctx := ⟨[], [mkN "comment" "// adds" [] []]⟩

/-- Witness for C3 (amended) at a concrete method preceded by one comment. -/
theorem c3_has_doc_iff_collected_witness :
    ((extractDocumentation c3wNode c3wCtx).has_doc = true) ∧
      "// adds" = jsTrim (jsJoin "\n" (collectedDocTexts c3wNode c3wCtx)) :=
  ⟨((c3_has_doc_iff_collected c3wNode c3wCtx).1).mpr (by decide),
   (c3_has_doc_iff_collected c3wNode c3wCtx).2.2 "// adds" (by rfl)⟩

/-- Tree for the C3 counterexample: a comment node with empty text (a
zero-width node from error recovery) immediately precedes the class. -/
def c3Tree : SNode :=
  mkN "program" "" []
    [mkN "comment" "" [] [],
     mkN "class_declaration" "class K ..." [("name", 1), ("body", 2)]
       [mkA "class" "class",
        mkN "identifier" "K" [] [],
        mkN "class_body" "..." [] []]]

/-- C3 counterexample: the class record extracted from `c3Tree` has
`has_doc = true` although the resolved documentation text is empty after
trimming (`docstring = some ""`): `has_doc` records that a comment was
collected, not that the trimmed join is non-empty. -/
theorem c3_counterexample :
    (extractClassesComplete JavaConfig (fun s => s) "f.java" "java" c3Tree).map
        (fun c => (c.documentation.has_doc, c.documentation.docstring)) =
      [(true, some "")] := by
  simp [c3Tree, mkN, mkA, extractClassesComplete, findNodesByTypeCtx,
    findNodesByTypeCtxFrom, rootCtx, preorderCtx, preorderCtxSibs,
    extractDocumentation, collectedDocTexts, collectPrecedingComments,
    addNamedComments, findDocstringIn, childForFieldName, commentTypes,
    Ctx.parentPrevSibs, getNodeName, jsOr, jsTrim, trimChars, jsJoin,
    SNode.type, SNode.text, SNode.isNamed, SNode.info, SNode.children,
    JavaConfig, List.lookup]

/-- Dropping the context from `fieldChildCtx` gives `childForFieldName`. -/
theorem fieldChildCtx_map_fst (n : SNode) (ctx : Ctx) (f : String) :
    (fieldChildCtx n ctx f).map Prod.fst = childForFieldName n f := by
  rw [fieldChildCtx, childForFieldName]
  cases List.lookup f n.info.fieldTable with
  | none => rfl
  | some i =>
      cases hg : n.children[i]? <;> simp [List.get?_eq_getElem?, hg]


/-- Java tree for the C10 demonstration: class `Outer` holds method `m0`
and nested class `Inner`, which holds method `m1`. -/
def c10Inner : SNode :=
  mkN "class_declaration" "class Inner ... void m1() ..." [("name", 1), ("body", 2)]
    [mkA "class" "class",
     mkN "identifier" "Inner" [] [],
     mkN "class_body" "... void m1() ..." []
       [mkN "method_declaration" "void m1() ..." [("type", 0), ("name", 1)]
         [mkN "void_type" "void" [] [],
          mkN "identifier" "m1" [] []]]]

/-- Body of the outer class of the C10 demonstration tree. -/
def c10OuterBody : SNode :=
  mkN "class_body" "... void m0() and class Inner ..." []
    [mkN "method_declaration" "void m0() ..." [("type", 0), ("name", 1)]
      [mkN "void_type" "void" [] [],
       mkN "identifier" "m0" [] []],
     c10Inner]

/-- Outer class node of the C10 demonstration tree. -/
def c10OuterClass : SNode :=
  mkN "class_declaration" "class Outer ... void m0() and class Inner ..."
    [("name", 1), ("body", 2)]
    [mkA "class" "class",
     mkN "identifier" "Outer" [] [],
     c10OuterBody]

/-- The C10 demonstration tree. -/
def c10Tree : SNode := mkN "program" "" [] [c10OuterClass]

/-- C10: a class's method list is a type search over the entire class-body
subtree, so every method-type node of the body — including those of nested
inner classes — contributes a record qualified with *this* class's name;
`method_count` counts that same list.  In `c10Tree`, `Inner.m1` appears in
both `Outer`'s list (as `Outer.m1`) and `Inner`'s list (as `Inner.m1`) and
is counted in both method counts. -/
theorem c10_nested_methods_in_every_enclosing_class (cfg : LangConfig)
    (hashFn : String → String) (filePath language className : String)
    (classNode : SNode) (classCtx : Ctx) :
    (∀ body : SNode, childForFieldName classNode "body" = some body →
      (extractClassMethodsComplete cfg hashFn filePath language className
          classNode classCtx).map (fun r => r.qualified_name) =
        (findNodesByType body cfg.methodTypes).map
          (fun m => className ++ "." ++ getNodeName m cfg.methodNameField)) ∧
    (∀ root : SNode,
      (extractClassesComplete cfg hashFn filePath language root).all
        (fun c => c.metrics.method_count == c.methods.length) = true) ∧
    ((extractClassesComplete JavaConfig (fun s => s) "f.java" "java" c10Tree).map
        (fun c => (c.name, c.methods.map (fun m => m.qualified_name),
          c.metrics.method_count)) =
      [("Outer", ["Outer.m0", "Outer.m1"], 2), ("Inner", ["Inner.m1"], 1)]) := by
  refine ⟨?_, ?_, ?_⟩
  · intro body hb
    have hmap := fieldChildCtx_map_fst classNode classCtx "body"
    rw [hb] at hmap
    rcases Option.map_eq_some'.mp hmap with ⟨pr, hpr, hfst⟩
    obtain ⟨b0, c0⟩ := pr
    simp only at hfst
    subst hfst
    rw [extractClassMethodsComplete, hpr]
    rw [← findNodesByTypeCtxFrom_map_fst cfg.methodTypes b0 c0,
      List.map_map, List.map_map]
    rfl
  · intro root
    rw [extractClassesComplete, List.all_eq_true]
    intro c hc
    rw [List.mem_map] at hc
    obtain ⟨pr, hpr, hcc⟩ := hc
    rw [← hcc]
    exact beq_self_eq_true _
  · simp [c10Tree, c10OuterClass, c10OuterBody, c10Inner, mkN, mkA,
      extractClassesComplete, extractClassMethodsComplete, makeCMethodRecord,
      fieldChildCtx, findNodesByTypeCtx, findNodesByTypeCtxFrom, rootCtx,
      preorderCtx, preorderCtxSibs, findNodesByType, findNodesInList,
      getNodeName, childForFieldName, jsOr, calculateClassMetrics,
      extractClassFields, getReturnType, getParametersDetailed, SNode.type,
      SNode.text, SNode.info, SNode.children, JavaConfig, List.lookup]

/-- Witness for C10: the outer class of `c10Tree`, whose `body` child is
`c10OuterBody`, gets one record per method-type node of the entire body
subtree, each qualified with `"Outer"`. -/
theorem c10_nested_methods_in_every_enclosing_class_witness :
    (extractClassMethodsComplete JavaConfig (fun s => s) "f.java" "java" "Outer"
        c10OuterClass rootCtx).map (fun r => r.qualified_name) =
      (findNodesByType c10OuterBody JavaConfig.methodTypes).map
        (fun m => "Outer" ++ "." ++ getNodeName m JavaConfig.methodNameField) :=
  (c10_nested_methods_in_every_enclosing_class JavaConfig (fun s => s) "f.java"
    "java" "Outer" c10OuterClass rootCtx).1 c10OuterBody (by rfl)

/-- Witness for C7 (amended) at concrete inputs: `"Ruby"` fails fast with
the configuration error, `"csharp"` resolves to the C# configuration and
extractor, and `"constructor"` escapes the error path into a generic
extractor built around the inherited prototype member. -/
theorem c7_factory_pure_mapping_witness :
    createExtractor "Ruby" = .thrown ("不支持的语言: " ++ "Ruby") ∧
      (LanguageConfigMap.lookup (jsToLower "csharp") =
          some (Extractor.mk .csharp CSharpConfig).config ∧
        (Extractor.mk .csharp CSharpConfig).variant =
          variantForName (jsToLower "csharp")) ∧
      createExtractor "constructor" =
        .junk (variantForName (jsToLower "constructor")) :=
  ⟨(c7_factory_pure_mapping "Ruby").2.1 (by decide) (by decide),
   (c7_factory_pure_mapping "csharp").2.2.1 (Extractor.mk .csharp CSharpConfig)
     (by rfl),
   (c7_factory_pure_mapping "constructor").2.2.2 (by decide) (by decide)⟩

end AstSpec
